import Mathlib

/-!
Verification of the pexels-photo-fetcher program (src/main.go) against its
specification.

Modelling conventions:
* Go strings are byte sequences; we represent them as `List Nat` (each element
  a byte value) under the abbreviation `GoStr`.  String literals are turned
  into byte lists through `gs`, which applies the standard UTF-8 encoding —
  the same representation Go uses for source-literal strings.
* Pure helper functions of the program (`compileFirstURL`, the filename
  derivation inside `processPhoto`, request construction inside `sendRequest`
  and `downloadImage`) are translated directly.
* The network, the JSON decoder and the filesystem are external effects; they
  enter the model as explicit parameters (`pageF`, `imgF`, `decode`) and as an
  event trace (`Ev`) recording, in order, every page request, every image
  request and every file write the program performs.
* The unbounded `for` loop of `main` is modelled with explicit fuel
  (`runFrom`); running out of fuel is a distinguished outcome
  (`Outcome.outOfFuel`), so termination statements can be expressed as
  "some fuel suffices".
-/

/-- Go strings are byte sequences: a list of byte values. -/
abbrev GoStr : Type := List Nat

deriving instance DecidableEq for Except

set_option maxRecDepth 100000

/-- UTF-8 encoding of one Unicode scalar value, as byte values. -/
def utf8Bytes (c : Char) : List Nat :=
  let n := c.toNat
  if n < 0x80 then [n]
  else if n < 0x800 then [0xC0 + n / 0x40, 0x80 + n % 0x40]
  else if n < 0x10000 then
    [0xE0 + n / 0x1000, 0x80 + (n / 0x40) % 0x40, 0x80 + n % 0x40]
  else
    [0xF0 + n / 0x40000, 0x80 + (n / 0x1000) % 0x40,
     0x80 + (n / 0x40) % 0x40, 0x80 + n % 0x40]

/-- A Lean string literal as the byte sequence of the equal Go string literal
(UTF-8, as in Go source). -/
def gs (s : String) : GoStr := (s.toList.map utf8Bytes).flatten

/-! ## Data model (src/main.go lines 18-49)

The JSON shapes `Response`, `Photo`, `Src`, translated field by field.
Go `int` becomes `Int`, `string` becomes `GoStr`, `bool` becomes `Bool`. -/

/-- The `Src` record of named image-variant URLs (src/main.go lines 39-48). -/
structure Src where
  original : GoStr
  large2x : GoStr
  large : GoStr
  medium : GoStr
  small : GoStr
  portrait : GoStr
  landscape : GoStr
  tiny : GoStr
deriving DecidableEq, Repr

/-- One photo record of a page (src/main.go lines 27-37). -/
structure Photo where
  id : Int
  width : Int
  height : Int
  url : GoStr
  photographer : GoStr
  photographerURL : GoStr
  photographerID : Int
  src : Src
  liked : Bool
deriving DecidableEq, Repr

/-- One page of search results (src/main.go lines 19-25). -/
structure Response where
  totalResults : Int
  page : Int
  perPage : Int
  photos : List Photo
  nextPage : GoStr
deriving DecidableEq, Repr

/-! ## Filename derivation (src/main.go lines 165-170)

`processPhoto` computes the destination filename as
`path.Base(photoURL[:strings.LastIndex(photoURL, "?")])` (the slice applied
only when a `'?'` occurs).  We translate `strings.LastIndex` for the
single-byte pattern `"?"` and Go's `path.Base`. -/

/-- Index of the last occurrence of byte `c` in the list, if any
(Go `strings.LastIndex` for a one-byte pattern). -/
def lastIndexOf (c : Nat) : GoStr → Option Nat
  | [] => none
  | b :: bs =>
    match lastIndexOf c bs with
    | some i => some (i + 1)
    | none => if b = c then some 0 else none

/-- Go `path.Base`: empty input gives `"."`; otherwise trailing slashes are
removed, then everything up to and including the last slash; an all-slash
input gives `"/"`.  Byte 47 is `'/'`, byte 46 is `'.'`. -/
def pathBase (l : GoStr) : GoStr :=
  if l = [] then [46]
  else
    let l1 := (l.reverse.dropWhile (fun b => b = 47)).reverse
    let l2 := (l1.reverse.takeWhile (fun b => b ≠ 47)).reverse
    if l2 = [] then [47] else l2

/-- The query-cutting step of `processPhoto` (src/main.go lines 166-168):
`if idx := strings.LastIndex(photoURL, "?"); idx != -1 then photoURL = photoURL[:idx]`.
Byte 63 is `'?'`. -/
def cutLastQ (photoURL : GoStr) : GoStr :=
  match lastIndexOf 63 photoURL with
  | some i => photoURL.take i
  | none => photoURL

/-- The filename derivation of `processPhoto` (src/main.go lines 165-170):
cut the string at the LAST `'?'` when one occurs, then take `path.Base`. -/
def deriveFilename (photoURL : GoStr) : GoStr :=
  pathBase (cutLastQ photoURL)

/-- Splitting a byte string at every occurrence of the byte `sep`
(Go `strings.Split` for a one-byte separator); never returns `[]`. -/
def splitOnByte (sep : Nat) : GoStr → List GoStr
  | [] => [[]]
  | b :: bs =>
    match splitOnByte sep bs with
    | [] => [[b]]
    | h :: t => if b = sep then [] :: h :: t else (b :: h) :: t

/-- Joining byte strings with a separator (inverse of `splitOnByte` on
separator-free chunks). -/
def joinSep (sep : GoStr) : List GoStr → GoStr
  | [] => []
  | [x] => x
  | x :: y :: rest => x ++ sep ++ joinSep sep (y :: rest)

/-- Spec-side reading of the filename derivation as the spec words it:
`strip any query-string suffix (everything from and including the first '?'),
then take the final path segment`.  Stripping from the FIRST `'?'` keeps
exactly the chunk before the first separator. -/
def specStripFirstQ (l : GoStr) : GoStr :=
  match splitOnByte 63 l with
  | [] => l
  | h :: _ => h

/-- The same spec sentence amended to the LAST `'?'`: all chunks but the
last, rejoined on `'?'`; a string without `'?'` is unchanged. -/
def specStripLastQ (l : GoStr) : GoStr :=
  if 63 ∈ l then joinSep [63] (splitOnByte 63 l).dropLast else l

/-! Supporting lemmas relating the code's `LastIndex`-based cut to the
split/rejoin reading of "strip everything from the last `'?'`". -/

/-! ## HTTP request construction (src/main.go lines 126-133 and 186-191)

`sendRequest` builds a GET request and adds the API key as the raw value of
the `Authorization` header; `downloadImage` builds a GET request and adds no
header at all. -/

/-- An HTTP request as the program builds it: method, URL and the header
list in insertion order. -/
structure Request where
  method : GoStr
  url : GoStr
  headers : List (GoStr × GoStr)
deriving DecidableEq, Repr

/-- `http.NewRequest(http.MethodGet, url, nil)`: a fresh request with no
headers. -/
def newRequest (method url : GoStr) : Request := ⟨method, url, []⟩

/-- `req.Header.Add(k, v)`: append one header. -/
def headerAdd (r : Request) (k v : GoStr) : Request :=
  { r with headers := r.headers ++ [(k, v)] }

/-- The page request built by `sendRequest` (src/main.go lines 127-132):
GET plus `Authorization: <key>`. -/
def pageRequest (url key : GoStr) : Request :=
  headerAdd (newRequest (gs "GET") url) (gs "Authorization") key

/-- The image request built by `downloadImage` (src/main.go lines 187-190):
GET with no headers added. -/
def imageRequest (url : GoStr) : Request :=
  newRequest (gs "GET") url

/-! ## Page fetch outcomes (src/main.go lines 126-156)

`sendRequest`'s effectful inputs are abstracted: the transport's answer is
an `HTTPResult`, and the JSON decoder is a parameter
`decode : GoStr → Option Response` (`json.Unmarshal` succeeding iff `decode`
returns `some`).  The function's externally visible result distinguishes a
returned error value from the `log.Fatalf` hard stop of line 152, which
aborts the whole process and logs the raw body. -/

/-- What the transport can answer: a network error, a response whose body
fails to read, or a response with status and body. -/
inductive HTTPResult where
  | transportErr
  | respReadErr (status : Nat)
  | response (status : Nat) (body : GoStr)
deriving DecidableEq, Repr

/-- Result of `sendRequest`: a decoded page, an error value returned to the
caller, or the process-stopping `log.Fatalf` that logs the raw body. -/
inductive FetchOutcome where
  | ok (r : Response)
  | errReturned (msg : String)
  | fatalStop (loggedBody : GoStr)
deriving DecidableEq, Repr

/-- `sendRequest` (src/main.go lines 126-156): transport error and non-200
status return error values; a body that does not decode hits
`log.Fatalf("cannot unmarshal json: ..., body: %q", ...)`, which stops the
process, logging the raw body. -/
def sendRequest (decode : GoStr → Option Response) : HTTPResult → FetchOutcome
  | .transportErr => .errReturned "cannot send request"
  | .respReadErr status =>
    if status ≠ 200 then .errReturned "got non-200 response"
    else .errReturned "cannot read response"
  | .response status body =>
    if status ≠ 200 then .errReturned "got non-200 response"
    else
      match decode body with
      | none => .fatalStop body
      | some r => .ok r

/-! ## URL building (src/main.go lines 110-124)

`compileFirstURL` parses the constant endpoint, injects the query with
`Values.Set` and re-encodes with `Values.Encode`.  The pieces of Go's
`net/url` that it exercises are translated here: `QueryEscape` /
`QueryUnescape`, `ParseQuery`, `Values.Set`, `Values.Encode` (which sorts
keys with `sort.Strings`, i.e. bytewise lexicographically), `url.Parse`
(restricted, see `goURLParse`) and `URL.String`. -/

/-- Upper-case hexadecimal digit byte for a value below 16
(Go `upperhex[...]`). -/
def hexChar (n : Nat) : Nat := if n < 10 then 48 + n else 55 + n

/-- Value of a hexadecimal digit byte (Go `unhex`, accepting both cases);
`none` on a non-hex byte (Go `ishex` false). -/
def hexVal (b : Nat) : Option Nat :=
  if 48 ≤ b ∧ b ≤ 57 then some (b - 48)
  else if 65 ≤ b ∧ b ≤ 70 then some (b - 55)
  else if 97 ≤ b ∧ b ≤ 102 then some (b - 87)
  else none

/-- Bytes Go's `shouldEscape` leaves unescaped in a query component:
alphanumerics and `- _ . ~`. -/
def isUnreservedQuery (b : Nat) : Bool :=
  (48 ≤ b && b ≤ 57) || (65 ≤ b && b ≤ 90) || (97 ≤ b && b ≤ 122) ||
    b == 45 || b == 95 || b == 46 || b == 126

/-- Escaping of one byte for a query component: unreserved bytes stand for
themselves, space (32) becomes `'+'` (43), everything else `%XX` with
upper-case hex (37 is `'%'`). -/
def escapeByte (b : Nat) : GoStr :=
  if isUnreservedQuery b then [b]
  else if b = 32 then [43]
  else [37, hexChar (b / 16), hexChar (b % 16)]

/-- Go `url.QueryEscape`, bytewise. -/
def queryEscape (q : GoStr) : GoStr := (q.map escapeByte).flatten

/-- Go `url.QueryUnescape`: `%XX` must carry two hex digits (else the
`EscapeError` is reported as `none`), `'+'` decodes to space, every other
byte stands for itself. -/
def queryUnescape : GoStr → Option GoStr
  | [] => some []
  | b :: rest =>
    if b = 37 then
      match rest with
      | a :: c :: rest' =>
        match hexVal a, hexVal c with
        | some x, some y => (queryUnescape rest').map (fun r => (16 * x + y) :: r)
        | _, _ => none
      | _ => none
    else if b = 43 then (queryUnescape rest).map (fun r => 32 :: r)
    else (queryUnescape rest).map (fun r => b :: r)

/-- Go `strings.Cut` for a one-byte separator: the part before the first
occurrence, the part after it, and whether it occurred.  Without an
occurrence the second component is empty. -/
def cutByte (sep : Nat) : GoStr → GoStr × GoStr × Bool
  | [] => ([], [], false)
  | b :: bs =>
    if b = sep then ([], bs, true)
    else
      let r := cutByte sep bs
      (b :: r.1, r.2.1, r.2.2)

/-- Go's `url.Values` as an association list from key to values, in first-
insertion order (the map's iteration order never matters: `Encode` sorts). -/
abbrev GoValues : Type := List (GoStr × List GoStr)

/-- Append one value under a key (`m[key] = append(m[key], value)`). -/
def valuesAdd (m : GoValues) (k v : GoStr) : GoValues :=
  match m with
  | [] => [(k, [v])]
  | (k', vs) :: rest =>
    if k' = k then (k', vs ++ [v]) :: rest else (k', vs) :: valuesAdd rest k v

/-- Go `Values.Set`: replace all values of the key by the one given. -/
def valuesSet (m : GoValues) (k v : GoStr) : GoValues :=
  match m with
  | [] => [(k, [v])]
  | (k', vs) :: rest =>
    if k' = k then (k', [v]) :: rest else (k', vs) :: valuesSet rest k v

/-- One iteration of Go's `parseQuery` loop: skip chunks containing `';'`
(59) and empty chunks, cut the chunk at the first `'='` (61), unescape key
and value, and skip the chunk if either unescape fails. -/
def parseQueryStep (m : GoValues) (kv : GoStr) : GoValues :=
  if 59 ∈ kv then m
  else if kv = [] then m
  else
    match queryUnescape (cutByte 61 kv).1, queryUnescape (cutByte 61 kv).2.1 with
    | some k, some v => valuesAdd m k v
    | _, _ => m

/-- Go `url.ParseQuery` as `URL.Query` uses it (errors dropped): split on
`'&'` (38) and fold the per-chunk step. -/
def parseQuery (q : GoStr) : GoValues :=
  (splitOnByte 38 q).foldl parseQueryStep []

/-- Go `Values.Get`: the first value stored under the key, as an `Option`. -/
def valuesGet (m : GoValues) (k : GoStr) : Option GoStr :=
  match m with
  | [] => none
  | (k', vs) :: rest => if k' = k then vs.head? else valuesGet rest k

/-- Bytewise lexicographic order on byte strings (Go `string` `<`, the order
of `sort.Strings`). -/
def strLtB : GoStr → GoStr → Bool
  | [], [] => false
  | [], _ :: _ => true
  | _ :: _, [] => false
  | a :: as, b :: bs => if a < b then true else if b < a then false else strLtB as bs

/-- Insertion into a key-sorted association list. -/
def insertPair (x : GoStr × List GoStr) :
    GoValues → GoValues
  | [] => [x]
  | y :: ys => if strLtB y.1 x.1 then y :: insertPair x ys else x :: y :: ys

/-- Sorting an association list by key (`sort.Strings(keys)`). -/
def sortPairs : GoValues → GoValues
  | [] => []
  | x :: xs => insertPair x (sortPairs xs)

/-- Go `Values.Encode`: keys sorted bytewise, each value rendered as
`QueryEscape(k)=QueryEscape(v)`, the pieces joined by `'&'`. -/
def valuesEncode (m : GoValues) : GoStr :=
  joinSep [38]
    (((sortPairs m).map
        (fun kv => kv.2.map (fun v => queryEscape kv.1 ++ 61 :: queryEscape v))).flatten)

/-- The components of a parsed URL that the program touches. -/
structure GoURL where
  scheme : GoStr
  host : GoStr
  path : GoStr
  rawQuery : GoStr
deriving DecidableEq, Repr

/-- Alphabetic ASCII byte. -/
def isAlphaByte (b : Nat) : Bool := (65 ≤ b && b ≤ 90) || (97 ≤ b && b ≤ 122)

/-- ASCII digit byte. -/
def isDigitByte (b : Nat) : Bool := 48 ≤ b && b ≤ 57

/-- Byte allowed after the first position of a URL scheme. -/
def isSchemeByte (b : Nat) : Bool :=
  isAlphaByte b || isDigitByte b || b == 43 || b == 45 || b == 46

/-- Byte we accept inside a registered host name (a restriction of what Go
accepts: alphanumerics, `- . _ ~ :` and brackets). -/
def isHostByte (b : Nat) : Bool :=
  isAlphaByte b || isDigitByte b || b == 45 || b == 46 || b == 95 ||
    b == 126 || b == 58 || b == 91 || b == 93

/-- Every `'%'` (37) is followed by two hexadecimal digits. -/
def validPercent : GoStr → Bool
  | [] => true
  | b :: rest =>
    if b = 37 then
      match rest with
      | a :: c :: rest' => (hexVal a).isSome && (hexVal c).isSome && validPercent rest'
      | _ => false
    else validPercent rest

/-- Model of Go `url.Parse` restricted to absolute URLs of the shape
`scheme://host/path?query` — the shape of the program's constant endpoint.
It rejects the error cases `url.Parse` reports on such inputs: ASCII control
bytes anywhere, a missing or malformed scheme, a byte we do not accept in
the host, and a malformed percent-escape in the path.  The query part is
carried verbatim (Go does not validate `RawQuery` during `Parse`). -/
def goURLParse (s : GoStr) : Option GoURL :=
  if s.any (fun b => b < 32 || b = 127) then none
  else
    let c := cutByte 58 s
    if c.2.2 = false then none
    else if c.1 = [] then none
    else if ¬ (isAlphaByte c.1.headI) then none
    else if ¬ (c.1.all isSchemeByte) then none
    else
      match c.2.1 with
      | 47 :: 47 :: rest =>
        let host := rest.takeWhile (fun b => b ≠ 47 && b ≠ 63 && b ≠ 35)
        if ¬ (host.all isHostByte) then none
        else
          let afterHost := rest.drop host.length
          let path := afterHost.takeWhile (fun b => b ≠ 63 && b ≠ 35)
          if ¬ validPercent path then none
          else
            let rest2 := afterHost.drop path.length
            let rawQuery :=
              match rest2 with
              | 63 :: t => t.takeWhile (fun b => b ≠ 35)
              | _ => []
            some ⟨c.1, host, path, rawQuery⟩
      | _ => none

/-- Go `URL.String` for the URLs at hand: `scheme://host/path` plus
`?rawQuery` when the raw query is nonempty. -/
def urlToString (u : GoURL) : GoStr :=
  u.scheme ++ gs "://" ++ u.host ++ u.path ++
    (if u.rawQuery = [] then [] else 63 :: u.rawQuery)

/-- The constant first-page endpoint (src/main.go line 111). -/
def firstURL : GoStr := gs "https://api.pexels.com/v1/search?per_page=80&page=1"

/-- `compileFirstURL` (src/main.go lines 110-124): parse the constant
endpoint (returning the wrapped parse error if that failed), set the `query`
parameter, re-encode the query string and render the URL. -/
def compileFirstURL (query : GoStr) : Except String GoStr :=
  match goURLParse firstURL with
  | none => Except.error "parse first url"
  | some u =>
    let q := parseQuery u.rawQuery
    let q' := valuesSet q (gs "query") query
    Except.ok (urlToString { u with rawQuery := valuesEncode q' })

/-! ## Round-trip of the query encoding (claim C3) -/

/-- Appending a tail to the last chunk of a chunk list. -/
def appendToLast (ys : GoStr) : List GoStr → List GoStr
  | [] => [ys]
  | [x] => [x ++ ys]
  | x :: y :: t => x :: appendToLast ys (y :: t)

/-- The decoded `query` parameter of a URL: everything after the first `'?'`,
parsed as a query string (which percent-decodes), looked up at key `query`. -/
def queryParamOf (url : GoStr) : Option GoStr :=
  valuesGet (parseQuery (cutByte 63 url).2.1) (gs "query")

/-! ## The main loop (src/main.go lines 81-107)

`main`'s loop is modelled as a fuel-indexed function producing the ordered
trace of externally visible events — page requests, image requests, file
writes — together with an outcome.  The network is abstracted into two
functions: `pageF` answers a page request (`sendRequest` succeeding with a
decoded `Response` or failing in any of its returned-error ways), and
`imgF` answers an image download (`downloadImage` returning the body bytes
or failing on a transport error / non-200 status).  File creation and
writing (lines 173-181) are modelled as succeeding; a `fileWrite` event
records destination directory, derived filename and content.  A returned
error at any point hits `log.Fatalf` in `main` (lines 88, 96), modelled as
the `aborted` outcome with no further events. -/

/-- One externally visible event of a run. -/
inductive Ev where
  | pageReq (req : Request)
  | imgReq (req : Request)
  | fileWrite (dst : GoStr) (name : GoStr) (content : GoStr)
deriving DecidableEq, Repr

/-- How a (fuel-bounded) run ends: normal termination with the final
`totalCount` (process exit status 0, line 107 logging the count), an abort
through `log.Fatalf` (non-zero exit), or fuel exhaustion (the real loop is
still running). -/
inductive Outcome where
  | finished (total : Nat)
  | aborted
  | outOfFuel
deriving DecidableEq, Repr

/-- `processPhoto` (src/main.go lines 158-184): download the image
(recording the request); on failure return the error; on success derive the
filename and write the file into `dst`. -/
def processPhoto (imgF : GoStr → Except Unit GoStr) (photoURL dst : GoStr) :
    List Ev × Bool :=
  match imgF photoURL with
  | .error _ => ([.imgReq (imageRequest photoURL)], false)
  | .ok bytes =>
    ([.imgReq (imageRequest photoURL),
      .fileWrite dst (deriveFilename photoURL) bytes], true)

/-- The photo loop of `main` (src/main.go lines 93-98): each photo's
`Src.Large2x` URL is processed in order; the first failure aborts. -/
def processPhotos (imgF : GoStr → Except Unit GoStr) (dst : GoStr) :
    List Photo → List Ev × Bool
  | [] => ([], true)
  | p :: ps =>
    match processPhoto imgF p.src.large2x dst with
    | (evs, false) => (evs, false)
    | (evs, true) =>
      match processPhotos imgF dst ps with
      | (evs', ok) => (evs ++ evs', ok)

/-- The pagination loop of `main` (src/main.go lines 85-105), from a given
URI and running `totalCount`, with explicit fuel: request the page; on error
abort; otherwise add the photo count to the total, process every photo of
the page (aborting on the first failure), and stop when `nextPage` is empty,
else continue at the cursor taken verbatim from the response. -/
def runFrom (pageF : GoStr → Except Unit Response)
    (imgF : GoStr → Except Unit GoStr) (key dst : GoStr) :
    Nat → GoStr → Nat → List Ev × Outcome
  | 0, _, _ => ([], .outOfFuel)
  | fuel + 1, uri, total =>
    match pageF uri with
    | .error _ => ([.pageReq (pageRequest uri key)], .aborted)
    | .ok resp =>
      match processPhotos imgF dst resp.photos with
      | (evs, false) => (.pageReq (pageRequest uri key) :: evs, .aborted)
      | (evs, true) =>
        if resp.nextPage = [] then
          (.pageReq (pageRequest uri key) :: evs,
           .finished (total + resp.photos.length))
        else
          match runFrom pageF imgF key dst fuel resp.nextPage
              (total + resp.photos.length) with
          | (evs', out) => (.pageReq (pageRequest uri key) :: evs ++ evs', out)

/-- `main` after flag handling (src/main.go lines 76-107): build the first
URL (aborting on error) and run the loop from it with `totalCount = 0`. -/
def runMain (pageF : GoStr → Except Unit Response)
    (imgF : GoStr → Except Unit GoStr) (key dst query : GoStr) (fuel : Nat) :
    List Ev × Outcome :=
  match compileFirstURL query with
  | .error _ => ([], .aborted)
  | .ok u0 => runFrom pageF imgF key dst fuel u0 0

/-- The two events of one successfully processed photo, when the image
server answers `imgOk`. -/
def photoEvs (imgOk : GoStr → GoStr) (dst : GoStr) (p : Photo) : List Ev :=
  [.imgReq (imageRequest p.src.large2x),
   .fileWrite dst (deriveFilename p.src.large2x) (imgOk p.src.large2x)]

/-- The events of one fully processed page: its request followed by the
events of its photos, in order. -/
def pageBlock (imgOk : GoStr → GoStr) (key dst uri : GoStr) (r : Response) :
    List Ev :=
  .pageReq (pageRequest uri key) :: (r.photos.map (photoEvs imgOk dst)).flatten

/-- The expected trace of a run through the listed pages starting at a URI,
each page reached through the previous page's cursor. -/
def expectedTrace (imgOk : GoStr → GoStr) (key dst : GoStr) :
    GoStr → List Response → List Ev
  | _, [] => []
  | uri, r :: rest =>
    pageBlock imgOk key dst uri r ++ expectedTrace imgOk key dst r.nextPage rest

/-- The page fetcher follows the listed responses as a cursor chain from
the given URI: each response is served for its URI and hands a nonempty
`nextPage` cursor to the following one. -/
def chainSteps (pageF : GoStr → Except Unit Response) :
    GoStr → List Response → Prop
  | _, [] => True
  | uri, r :: rest =>
    pageF uri = Except.ok r ∧ r.nextPage ≠ [] ∧ chainSteps pageF r.nextPage rest

/-- The URI reached after following the listed responses' cursors. -/
def endURI : GoStr → List Response → GoStr
  | uri, [] => uri
  | _, r :: rest => endURI r.nextPage rest

/-- Total number of photos on the listed pages. -/
def totalPhotos (rs : List Response) : Nat :=
  (rs.map (fun r => r.photos.length)).sum

/-- Is the event a page request? -/
def isPageReq : Ev → Bool
  | .pageReq _ => true
  | _ => false

/-- The image URLs requested in a trace, in order. -/
def imgURLs (evs : List Ev) : List GoStr :=
  evs.filterMap (fun e =>
    match e with
    | .imgReq req => some req.url
    | _ => none)

/-- A stub photo whose `large2x` variant is the given URL. -/
def wPhoto (u : String) : Photo :=
  { id := 0, width := 0, height := 0, url := [], photographer := [],
    photographerURL := [], photographerID := 0,
    src := { original := [], large2x := gs u, large := [], medium := [],
             small := [], portrait := [], landscape := [], tiny := [] },
    liked := false }

/-- First page of the concrete two-page chain: two photos, cursor to page 2. -/
def wR1 : Response :=
  { totalResults := 3, page := 1, perPage := 80,
    photos := [wPhoto "https://img/a.jpg", wPhoto "https://img/b.jpg"],
    nextPage := gs "https://api/page2" }

/-- Second page of the concrete chain: one photo, empty cursor. -/
def wR2 : Response :=
  { totalResults := 3, page := 2, perPage := 80,
    photos := [wPhoto "https://img/c.jpg"], nextPage := [] }

/-- A page server serving the two-page chain. -/
def wPageF : GoStr → Except Unit Response := fun u =>
  if u = gs "https://api/page1" then Except.ok wR1
  else if u = gs "https://api/page2" then Except.ok wR2
  else Except.error ()

/-- An image server that always succeeds with fixed bytes. -/
def wImgF : GoStr → Except Unit GoStr := fun _ => Except.ok (gs "IMG")

/-- The bytes `wImgF` serves. -/
def wImgOk : GoStr → GoStr := fun _ => gs "IMG"

/-- An image server that always fails. -/
def wFailImgF : GoStr → Except Unit GoStr := fun _ => Except.error ()

/-- The URI the loop visits after `n` successful pages, following each
response's cursor. -/
def uriAt (pageOk : GoStr → Response) : GoStr → Nat → GoStr
  | uri, 0 => uri
  | uri, n + 1 => uriAt pageOk (pageOk uri).nextPage n

/-- The one photo of the C9 scenario: `src.large2x = "https://x/cats1.jpg"`,
all other fields zero values (absent in the scenario's JSON). -/
def catsPhoto : Photo :=
  { id := 0, width := 0, height := 0, url := [], photographer := [],
    photographerURL := [], photographerID := 0,
    src := { original := [], large2x := gs "https://x/cats1.jpg", large := [],
             medium := [], small := [], portrait := [], landscape := [],
             tiny := [] },
    liked := false }

/-- The single page response of the C9 scenario:
`{total_results: 1, photos: [catsPhoto], next_page: ""}`. -/
def catsResponse : Response :=
  { totalResults := 1, page := 0, perPage := 0, photos := [catsPhoto],
    nextPage := [] }

/-- A server answering the built first-page URL for query `cats` with the
scenario's single page. -/
def catsPageF : GoStr → Except Unit Response := fun u =>
  if u = gs "https://api.pexels.com/v1/search?page=1&per_page=80&query=cats"
  then Except.ok catsResponse
  else Except.error ()

/-- An image server whose downloads succeed with fixed bytes. -/
def catsImgF : GoStr → Except Unit GoStr := fun _ => Except.ok (gs "JPEG")

/-! ## Theorems -/

theorem lastIndexOf_eq_none_iff (c : Nat) (l : GoStr) :
    lastIndexOf c l = none ↔ c ∉ l := by
  induction l with
  | nil => simp [lastIndexOf]
  | cons b bs ih =>
    simp only [lastIndexOf, List.mem_cons]
    cases h : lastIndexOf c bs with
    | some i => simp [h] at ih; simp [ih]
    | none =>
      rw [h] at ih
      have hnm : c ∉ bs := ih.mp rfl
      by_cases hb : b = c
      · simp [hb]
      · have hcb : ¬c = b := fun e => hb e.symm
        simp [hb, hnm, hcb]

theorem splitOnByte_ne_nil (sep : Nat) (l : GoStr) : splitOnByte sep l ≠ [] := by
  cases l with
  | nil => simp [splitOnByte]
  | cons b bs =>
    simp only [splitOnByte]
    cases h : splitOnByte sep bs with
    | nil => simp
    | cons h t => by_cases hb : b = sep <;> simp [hb]

theorem splitOnByte_of_not_mem (sep : Nat) (l : GoStr) (h : sep ∉ l) :
    splitOnByte sep l = [l] := by
  induction l with
  | nil => rfl
  | cons b bs ih =>
    simp only [List.mem_cons, not_or] at h
    have hb : ¬b = sep := fun e => h.1 e.symm
    simp only [splitOnByte, ih h.2, hb, if_false]

theorem two_le_length_splitOnByte (sep : Nat) (l : GoStr) (h : sep ∈ l) :
    2 ≤ (splitOnByte sep l).length := by
  induction l with
  | nil => simp at h
  | cons b bs ih =>
    simp only [splitOnByte]
    rcases List.mem_cons.mp h with hb | hm
    · cases hs : splitOnByte sep bs with
      | nil => exact absurd hs (splitOnByte_ne_nil sep bs)
      | cons x t => simp [← hb]
    · cases hs : splitOnByte sep bs with
      | nil => exact absurd hs (splitOnByte_ne_nil sep bs)
      | cons x t =>
        have := ih hm
        rw [hs] at this
        simp only [List.length_cons] at this
        by_cases hb : b = sep
        · simp [hb]
        · simp only [hb, if_false, List.length_cons]
          omega

theorem joinSep_cons_head (s : GoStr) (b : Nat) (h1 : GoStr) (t : List GoStr) :
    joinSep s ((b :: h1) :: t) = b :: joinSep s (h1 :: t) := by
  cases t with
  | nil => rfl
  | cons y rest => simp [joinSep]

/-- A byte consed onto a string that still contains a `'?'` passes through
the strip-at-last-`'?'` operation. -/
theorem specStripLastQ_cons_of_mem (b : Nat) (bs : GoStr) (hm : 63 ∈ bs) :
    specStripLastQ (b :: bs) = b :: specStripLastQ bs := by
  have hmem : (63 : Nat) ∈ b :: bs := List.mem_cons_of_mem b hm
  cases hs : splitOnByte 63 bs with
  | nil => exact absurd hs (splitOnByte_ne_nil 63 bs)
  | cons h1 t =>
    have hlen := two_le_length_splitOnByte 63 bs hm
    rw [hs] at hlen
    simp only [List.length_cons] at hlen
    have ht : t ≠ [] := by
      cases t with
      | nil => simp at hlen
      | cons _ _ => simp
    by_cases hb : b = 63
    · subst hb
      simp only [specStripLastQ, hmem, if_pos, hm, splitOnByte, hs]
      rw [List.dropLast_cons_of_ne_nil (by simp : h1 :: t ≠ [])]
      rw [List.dropLast_cons_of_ne_nil ht]
      cases hd : t.dropLast with
      | nil =>
        have : t.length = 1 := by
          have := congrArg List.length hd
          simp [List.length_dropLast] at this
          omega
        simp [joinSep]
      | cons y rest => simp [joinSep]
    · simp only [specStripLastQ, hmem, if_pos, hm, splitOnByte, hs, hb, if_false]
      rw [List.dropLast_cons_of_ne_nil ht, List.dropLast_cons_of_ne_nil ht]
      exact joinSep_cons_head [63] b h1 t.dropLast

/-- The code's cut (at the LAST `'?'`, via `strings.LastIndex`) agrees with
the split/rejoin reading of "strip everything from and including the last
`'?'`". -/
theorem cutLastQ_eq_specStripLastQ (l : GoStr) : cutLastQ l = specStripLastQ l := by
  induction l with
  | nil => rfl
  | cons b bs ih =>
    cases h : lastIndexOf 63 bs with
    | some i =>
      have hm : (63 : Nat) ∈ bs := by
        by_contra hc
        rw [← lastIndexOf_eq_none_iff 63 bs] at hc
        rw [h] at hc
        exact Option.noConfusion hc
      have hL : cutLastQ (b :: bs) = b :: cutLastQ bs := by
        simp [cutLastQ, lastIndexOf, h, List.take_succ_cons]
      rw [hL, ih, specStripLastQ_cons_of_mem b bs hm]
    | none =>
      have hnm : (63 : Nat) ∉ bs := (lastIndexOf_eq_none_iff 63 bs).mp h
      by_cases hb : b = 63
      · subst hb
        have hL : cutLastQ (63 :: bs) = [] := by
          simp [cutLastQ, lastIndexOf, h]
        rw [hL]
        have hmem : (63 : Nat) ∈ 63 :: bs := List.mem_cons_self 63 bs
        simp only [specStripLastQ, hmem, if_pos, splitOnByte,
          splitOnByte_of_not_mem 63 bs hnm]
        simp [joinSep]
      · have hL : cutLastQ (b :: bs) = b :: bs := by
          simp [cutLastQ, lastIndexOf, h, hb]
        rw [hL]
        have hb' : ¬(63 : Nat) = b := fun e => hb e.symm
        have hmem : (63 : Nat) ∉ b :: bs := by simp [hb', hnm]
        simp [specStripLastQ, hmem]

/-- C1, counterexample: the claim says the filename derivation strips
everything from and including the FIRST `'?'` before taking the final path
segment, for every variant URL.  On the URL `"https://x/a?b?c"` (two `'?'`
bytes) the program's derivation (`strings.LastIndex`) yields `"a?b"` while
stripping from the first `'?'` would yield `"a"`. -/
theorem deriveFilename_first_qmark_counterexample :
    deriveFilename (gs "https://x/a?b?c") ≠
      pathBase (specStripFirstQ (gs "https://x/a?b?c")) := by
  decide

/-- C1, amended: the filename derivation strips everything from and
including the LAST `'?'` (the code uses `strings.LastIndex`), then takes the
final path segment; in particular it still maps
`"https://images.example.com/photos/42/pic.jpg?auto=compress&cs=tinysrgb"`
to `"pic.jpg"` (that URL has a single `'?'`). -/
theorem deriveFilename_strips_last_qmark :
    (∀ s : GoStr, deriveFilename s = pathBase (specStripLastQ s)) ∧
      deriveFilename
        (gs "https://images.example.com/photos/42/pic.jpg?auto=compress&cs=tinysrgb") =
        gs "pic.jpg" := by
  refine ⟨fun s => ?_, by decide⟩
  unfold deriveFilename
  rw [cutLastQ_eq_specStripLastQ]

/-- C7: every page request carries the API key as the raw value of the
`Authorization` header (the header list is exactly
`[("Authorization", key)]` — no `"Bearer "` prefix, no signing), and the
image download request carries no headers at all. -/
theorem pageRequest_auth_imageRequest_bare (url key : GoStr) :
    (pageRequest url key).headers = [(gs "Authorization", key)] ∧
      (imageRequest url).headers = [] :=
  ⟨rfl, rfl⟩

/-- C5: the page fetch returns an error value on a transport failure,
returns an error value on any non-200 status, and on a body that does not
decode as the `Response` shape it stops the whole process, logging the raw
body (it never returns in that case). -/
theorem sendRequest_error_paths (decode : GoStr → Option Response) :
    sendRequest decode .transportErr = .errReturned "cannot send request" ∧
      (∀ status body, status ≠ 200 →
        sendRequest decode (.response status body) =
          .errReturned "got non-200 response") ∧
      (∀ body, decode body = none →
        sendRequest decode (.response 200 body) = .fatalStop body) := by
  refine ⟨rfl, fun status body h => ?_, fun body h => ?_⟩
  · simp [sendRequest, h]
  · simp [sendRequest, h]

/-- C5 witness: the three error paths at concrete inputs. -/
theorem sendRequest_error_paths_witness :
    sendRequest (fun _ => none) .transportErr =
        .errReturned "cannot send request" ∧
      sendRequest (fun _ => none) (.response 404 []) =
        .errReturned "got non-200 response" ∧
      sendRequest (fun _ => none) (.response 200 (gs "oops")) =
        .fatalStop (gs "oops") :=
  ⟨(sendRequest_error_paths (fun _ => none)).1,
   (sendRequest_error_paths (fun _ => none)).2.1 404 [] (by decide),
   (sendRequest_error_paths (fun _ => none)).2.2 (gs "oops") rfl⟩

/-- The first-page URL `compileFirstURL` actually produces: `Values.Encode`
sorts the parameter names bytewise (`page` < `per_page` < `query`), so the
query part comes out reordered relative to the constant template. -/
theorem compileFirstURL_eq (q : GoStr) :
    compileFirstURL q =
      Except.ok
        (gs "https://api.pexels.com/v1/search?page=1&per_page=80&query=" ++
          queryEscape q) := rfl

/-- C10: building the initial request URL never fails — for every query
byte string (empty, reserved bytes, non-ASCII alike) `compileFirstURL`
returns `ok`; the error branch (failure to parse the constant endpoint) is
unreachable because the constant parses. -/
theorem compileFirstURL_never_fails (query : GoStr) :
    ∃ u, compileFirstURL query = Except.ok u :=
  ⟨_, compileFirstURL_eq query⟩

/-- C4, counterexample: the claim fixes the first-page URL to the template
`https://api.pexels.com/v1/search?per_page=80&page=1&query=<urlencoded Q>`,
but already for `Q = "cats"` the program produces the parameters in sorted
order `page=1&per_page=80&query=cats`, not `per_page=80&page=1&query=cats`. -/
theorem compileFirstURL_template_counterexample :
    compileFirstURL (gs "cats") ≠
      Except.ok (gs "https://api.pexels.com/v1/search?per_page=80&page=1&query=cats") := by
  decide

/-- C4, amended: for every query `Q` the first-page URL is exactly
`https://api.pexels.com/v1/search?page=1&per_page=80&query=<urlencoded Q>`
— fixed scheme, host, path and the parameters `page=1` and `per_page=80`
(reordered bytewise-alphabetically by `Values.Encode`), with only the
`query` parameter varying. -/
theorem compileFirstURL_fixed_template (q : GoStr) :
    compileFirstURL q =
      Except.ok
        (gs "https://api.pexels.com/v1/search?page=1&per_page=80&query=" ++
          queryEscape q) :=
  compileFirstURL_eq q

/-- Hex encoding of a digit value decodes to itself. -/
theorem hexVal_hexChar : ∀ x : Nat, x < 16 → hexVal (hexChar x) = some x := by
  decide

/-- Bytes produced by `hexChar` are never `'&'` (38) or `';'` (59). -/
theorem hexChar_ne_amp_semi (x : Nat) : hexChar x ≠ 38 ∧ hexChar x ≠ 59 := by
  unfold hexChar
  split <;> omega

/-- The ranges behind `isUnreservedQuery`. -/
theorem unreserved_ranges (b : Nat) (h : isUnreservedQuery b = true) :
    (48 ≤ b ∧ b ≤ 57) ∨ (65 ≤ b ∧ b ≤ 90) ∨ (97 ≤ b ∧ b ≤ 122) ∨
      b = 45 ∨ b = 95 ∨ b = 46 ∨ b = 126 := by
  simp [isUnreservedQuery] at h
  omega

/-- Query-escaped strings never contain a raw `'&'` (38) or `';'` (59):
both are reserved, hence always `%`-escaped. -/
theorem not_mem_queryEscape_amp_semi (q : GoStr) :
    38 ∉ queryEscape q ∧ 59 ∉ queryEscape q := by
  induction q with
  | nil => exact ⟨List.not_mem_nil 38, List.not_mem_nil 59⟩
  | cons b rest ih =>
    have hstep : 38 ∉ escapeByte b ∧ 59 ∉ escapeByte b := by
      by_cases hU : isUnreservedQuery b
      · have hr := unreserved_ranges b hU
        simp only [escapeByte, hU, if_true]
        constructor <;> simp <;> omega
      · by_cases h32 : b = 32
        · subst h32; simp [escapeByte, hU]
        · simp only [escapeByte, hU, h32, if_false, Bool.false_eq_true]
          have h1 := hexChar_ne_amp_semi (b / 16)
          have h2 := hexChar_ne_amp_semi (b % 16)
          refine ⟨?_, ?_⟩ <;> intro hmem <;>
            simp only [List.mem_cons, List.not_mem_nil, or_false] at hmem
          · rcases hmem with e | e | e
            · omega
            · exact h1.1 e.symm
            · exact h2.1 e.symm
          · rcases hmem with e | e | e
            · omega
            · exact h1.2 e.symm
            · exact h2.2 e.symm
    show 38 ∉ escapeByte b ++ queryEscape rest ∧ 59 ∉ escapeByte b ++ queryEscape rest
    simp only [List.mem_append, not_or]
    exact ⟨⟨hstep.1, ih.1⟩, ⟨hstep.2, ih.2⟩⟩

/-- Unfolding of `queryUnescape` on an ordinary byte. -/
theorem queryUnescape_cons_other (b : Nat) (l : GoStr)
    (h37 : ¬b = 37) (h43 : ¬b = 43) :
    queryUnescape (b :: l) = (queryUnescape l).map (fun r => b :: r) := by
  rw [queryUnescape.eq_def]
  simp [h37, h43]

/-- Unfolding of `queryUnescape` on `'+'`. -/
theorem queryUnescape_cons_plus (l : GoStr) :
    queryUnescape (43 :: l) = (queryUnescape l).map (fun r => 32 :: r) := by
  rw [queryUnescape.eq_def]
  simp

/-- Unfolding of `queryUnescape` on a valid `%XX` escape. -/
theorem queryUnescape_cons_pct (l : GoStr) (a c x y : Nat)
    (ha : hexVal a = some x) (hc : hexVal c = some y) :
    queryUnescape (37 :: a :: c :: l) =
      (queryUnescape l).map (fun r => (16 * x + y) :: r) := by
  rw [queryUnescape.eq_def]
  simp [ha, hc]

/-- Encode-then-decode is the identity on byte strings (Go
`QueryUnescape(QueryEscape(q)) == q`). -/
theorem queryUnescape_queryEscape (q : GoStr) (h : ∀ b ∈ q, b < 256) :
    queryUnescape (queryEscape q) = some q := by
  induction q with
  | nil => rfl
  | cons b rest ih =>
    have hb : b < 256 := h b (List.mem_cons_self b rest)
    have hrest : ∀ x ∈ rest, x < 256 := fun x hx => h x (List.mem_cons_of_mem b hx)
    have ih' := ih hrest
    show queryUnescape (escapeByte b ++ queryEscape rest) = some (b :: rest)
    by_cases hU : isUnreservedQuery b
    · have hr := unreserved_ranges b hU
      have h37 : ¬b = 37 := by omega
      have h43 : ¬b = 43 := by omega
      simp only [escapeByte, hU, if_true, List.cons_append, List.nil_append]
      rw [queryUnescape_cons_other b _ h37 h43, ih']
      rfl
    · by_cases h32 : b = 32
      · subst h32
        simp only [escapeByte, hU, Bool.false_eq_true, if_false, if_true,
          List.cons_append, List.nil_append]
        rw [queryUnescape_cons_plus, ih']
        rfl
      · have hd : b / 16 < 16 := by omega
        have hm : b % 16 < 16 := Nat.mod_lt _ (by norm_num)
        simp only [escapeByte, hU, h32, if_false, Bool.false_eq_true,
          List.cons_append, List.nil_append]
        rw [queryUnescape_cons_pct _ _ _ _ _ (hexVal_hexChar _ hd)
          (hexVal_hexChar _ hm), ih']
        simp [Nat.div_add_mod]

/-- Splitting an appended string whose tail is separator-free: the tail
merges into the last chunk. -/
theorem splitOnByte_append_not_mem (sep : Nat) (xs ys : GoStr) (h : sep ∉ ys) :
    splitOnByte sep (xs ++ ys) = appendToLast ys (splitOnByte sep xs) := by
  induction xs with
  | nil =>
    simp only [List.nil_append, splitOnByte_of_not_mem sep ys h, splitOnByte,
      appendToLast]
  | cons b xs ih =>
    cases hs : splitOnByte sep xs with
    | nil => exact absurd hs (splitOnByte_ne_nil sep xs)
    | cons h1 t =>
      rw [List.cons_append]
      simp only [splitOnByte, ih, hs]
      cases t with
      | nil =>
        by_cases hb : b = sep <;> simp [appendToLast, hb]
      | cons y t' =>
        by_cases hb : b = sep <;> simp [appendToLast, hb]

/-- The `query=<escaped>` chunk parses to one `query` entry holding the
decoded value. -/
theorem parseQueryStep_query_chunk (m : GoValues) (q : GoStr)
    (h : ∀ b ∈ q, b < 256) :
    parseQueryStep m (gs "query=" ++ queryEscape q) = valuesAdd m (gs "query") q := by
  have h59 : (59 : Nat) ∉ gs "query=" ++ queryEscape q := by
    simp only [List.mem_append, not_or]
    exact ⟨by decide, (not_mem_queryEscape_amp_semi q).2⟩
  have hne : gs "query=" ++ queryEscape q ≠ [] := by
    rw [show gs "query=" ++ queryEscape q = 113 :: (gs "uery=" ++ queryEscape q) from rfl]
    exact List.cons_ne_nil _ _
  unfold parseQueryStep
  rw [if_neg h59, if_neg hne]
  rw [show (cutByte 61 (gs "query=" ++ queryEscape q)).1 = gs "query" from rfl]
  rw [show (cutByte 61 (gs "query=" ++ queryEscape q)).2.1 = queryEscape q from rfl]
  rw [queryUnescape_queryEscape q h]
  rfl

/-- The query part of the produced first-page URL parses back to the three
expected parameters, the `query` value already decoded. -/
theorem parseQuery_first_url (q : GoStr) (h : ∀ b ∈ q, b < 256) :
    parseQuery (gs "page=1&per_page=80&query=" ++ queryEscape q) =
      [(gs "page", [gs "1"]), (gs "per_page", [gs "80"]), (gs "query", [q])] := by
  unfold parseQuery
  rw [splitOnByte_append_not_mem 38 (gs "page=1&per_page=80&query=") (queryEscape q)
    (not_mem_queryEscape_amp_semi q).1]
  rw [show appendToLast (queryEscape q) (splitOnByte 38 (gs "page=1&per_page=80&query=")) =
    [gs "page=1", gs "per_page=80", gs "query=" ++ queryEscape q] from rfl]
  simp only [List.foldl_cons, List.foldl_nil]
  rw [parseQueryStep_query_chunk _ q h]
  rfl

/-- C3: for every query byte string `Q`, building the initial request URL
yields a URL whose `query` parameter, once URL-decoded, is exactly `Q`
again — the encode-then-decode round trip is the identity. -/
theorem compileFirstURL_query_roundtrip (q : GoStr) (h : ∀ b ∈ q, b < 256) :
    ∃ u, compileFirstURL q = Except.ok u ∧ queryParamOf u = some q := by
  refine ⟨_, compileFirstURL_eq q, ?_⟩
  unfold queryParamOf
  rw [show (cutByte 63
      (gs "https://api.pexels.com/v1/search?page=1&per_page=80&query=" ++
        queryEscape q)).2.1 =
    gs "page=1&per_page=80&query=" ++ queryEscape q from rfl]
  rw [parseQuery_first_url q h]
  rfl

/-- C3 witness: the round trip at a query with spaces, reserved bytes and
non-ASCII letters. -/
theorem compileFirstURL_query_roundtrip_witness :
    (∀ b ∈ gs "grüne Äpfel & più", b < 256) ∧
      ∃ u, compileFirstURL (gs "grüne Äpfel & più") = Except.ok u ∧
        queryParamOf u = some (gs "grüne Äpfel & più") :=
  ⟨by decide, compileFirstURL_query_roundtrip _ (by decide)⟩

/-- When every download of the page succeeds, the photo loop emits exactly
the per-photo event pairs, in photo order, and reports success. -/
theorem processPhotos_ok (imgF : GoStr → Except Unit GoStr)
    (imgOk : GoStr → GoStr) (dst : GoStr) (ps : List Photo)
    (h : ∀ p ∈ ps, imgF p.src.large2x = Except.ok (imgOk p.src.large2x)) :
    processPhotos imgF dst ps = ((ps.map (photoEvs imgOk dst)).flatten, true) := by
  induction ps with
  | nil => rfl
  | cons p ps ih =>
    have hp := h p (List.mem_cons_self p ps)
    have hps : ∀ q ∈ ps, imgF q.src.large2x = Except.ok (imgOk q.src.large2x) :=
      fun q hq => h q (List.mem_cons_of_mem p hq)
    simp only [processPhotos, processPhoto, hp, ih hps, List.map_cons,
      List.flatten_cons, photoEvs]

/-- When the downloads succeed up to a failing photo, the photo loop emits
the event pairs of the earlier photos, then the failing photo's image
request — and no file write for it — and reports failure. -/
theorem processPhotos_fail (imgF : GoStr → Except Unit GoStr)
    (imgOk : GoStr → GoStr) (dst : GoStr) (pre : List Photo) (pbad : Photo)
    (post : List Photo)
    (hok : ∀ p ∈ pre, imgF p.src.large2x = Except.ok (imgOk p.src.large2x))
    (hbad : imgF pbad.src.large2x = Except.error ()) :
    processPhotos imgF dst (pre ++ pbad :: post) =
      ((pre.map (photoEvs imgOk dst)).flatten ++
        [Ev.imgReq (imageRequest pbad.src.large2x)], false) := by
  induction pre with
  | nil =>
    simp only [List.nil_append, processPhotos, processPhoto, hbad, List.map_nil,
      List.flatten_nil]
  | cons p pre ih =>
    have hp := hok p (List.mem_cons_self p pre)
    have hpre : ∀ q ∈ pre, imgF q.src.large2x = Except.ok (imgOk q.src.large2x) :=
      fun q hq => hok q (List.mem_cons_of_mem p hq)
    simp only [List.cons_append, processPhotos, processPhoto, hp, List.map_cons,
      List.flatten_cons, photoEvs, List.append_assoc, List.append_eq, ih hpre]

/-- Running the loop along a cursor chain of successful pages with all
downloads succeeding: the trace is the concatenation of the page blocks,
followed by whatever a run from the end of the chain produces with the
remaining fuel, the running total increased by the photos seen. -/
theorem runFrom_chain (pageF : GoStr → Except Unit Response)
    (imgF : GoStr → Except Unit GoStr) (imgOk : GoStr → GoStr) (key dst : GoStr)
    (rs : List Response) :
    ∀ uri t fuel, chainSteps pageF uri rs →
      (∀ r ∈ rs, ∀ p ∈ r.photos,
        imgF p.src.large2x = Except.ok (imgOk p.src.large2x)) →
      runFrom pageF imgF key dst (rs.length + fuel) uri t =
        (expectedTrace imgOk key dst uri rs ++
           (runFrom pageF imgF key dst fuel (endURI uri rs) (t + totalPhotos rs)).1,
         (runFrom pageF imgF key dst fuel (endURI uri rs) (t + totalPhotos rs)).2) := by
  induction rs with
  | nil =>
    intro uri t fuel _ _
    simp [expectedTrace, endURI, totalPhotos]
  | cons r rest ih =>
    intro uri t fuel hchain hdl
    obtain ⟨h1, h2, h3⟩ := hchain
    have hdlr : ∀ p ∈ r.photos, imgF p.src.large2x = Except.ok (imgOk p.src.large2x) :=
      fun p hp => hdl r (List.mem_cons_self r rest) p hp
    have hdlrest : ∀ r' ∈ rest, ∀ p ∈ r'.photos,
        imgF p.src.large2x = Except.ok (imgOk p.src.large2x) :=
      fun r' hr' => hdl r' (List.mem_cons_of_mem r hr')
    have hlen : (r :: rest).length + fuel = (rest.length + fuel) + 1 := by
      simp only [List.length_cons]
      omega
    rw [hlen]
    simp only [runFrom, h1, processPhotos_ok imgF imgOk dst r.photos hdlr,
      if_neg h2]
    rw [ih r.nextPage (t + r.photos.length) fuel h3 hdlrest]
    have htot : t + r.photos.length + totalPhotos rest = t + totalPhotos (r :: rest) := by
      simp only [totalPhotos, List.map_cons, List.sum_cons]
      omega
    rw [htot]
    simp [expectedTrace, pageBlock, endURI, List.append_assoc]

/-- Photo events contain no page request. -/
theorem filter_isPageReq_photoEvs (imgOk : GoStr → GoStr) (dst : GoStr)
    (ps : List Photo) :
    ((ps.map (photoEvs imgOk dst)).flatten.filter isPageReq) = [] := by
  induction ps with
  | nil => rfl
  | cons p ps ih => simp [photoEvs, isPageReq, ih]

/-- One page request per page block in the expected trace. -/
theorem length_filter_isPageReq_expectedTrace (imgOk : GoStr → GoStr)
    (key dst : GoStr) (rs : List Response) :
    ∀ uri, ((expectedTrace imgOk key dst uri rs).filter isPageReq).length =
      rs.length := by
  induction rs with
  | nil => intro uri; rfl
  | cons r rest ih =>
    intro uri
    simp [expectedTrace, pageBlock, List.filter_append,
      filter_isPageReq_photoEvs, isPageReq, ih]
    have hz : (List.length ∘ List.filter isPageReq ∘ photoEvs imgOk dst) =
        fun _ => 0 := by
      funext p
      simp [Function.comp, photoEvs, isPageReq]
    rw [hz]
    simp

/-- Traces append under `imgURLs`. -/
theorem imgURLs_append (a b : List Ev) :
    imgURLs (a ++ b) = imgURLs a ++ imgURLs b := by
  simp [imgURLs, List.filterMap_append]

/-- The image URLs of a page's photo events are the photos' `large2x`
fields, in order. -/
theorem imgURLs_photoEvs (imgOk : GoStr → GoStr) (dst : GoStr)
    (ps : List Photo) :
    imgURLs ((ps.map (photoEvs imgOk dst)).flatten) =
      ps.map (fun p => p.src.large2x) := by
  induction ps with
  | nil => rfl
  | cons p ps ih =>
    simp only [List.map_cons, List.flatten_cons, imgURLs_append, ih]
    simp [imgURLs, photoEvs, imageRequest, newRequest]

/-- The image URLs of the expected trace: page by page, photo by photo. -/
theorem imgURLs_expectedTrace (imgOk : GoStr → GoStr) (key dst : GoStr)
    (rs : List Response) :
    ∀ uri, imgURLs (expectedTrace imgOk key dst uri rs) =
      (rs.map (fun r => r.photos.map (fun p => p.src.large2x))).flatten := by
  induction rs with
  | nil => intro uri; rfl
  | cons r rest ih =>
    intro uri
    simp only [expectedTrace, imgURLs_append, ih, List.map_cons, List.flatten_cons]
    simp only [pageBlock]
    rw [show imgURLs (Ev.pageReq (pageRequest uri key) ::
        (r.photos.map (photoEvs imgOk dst)).flatten) =
      imgURLs ((r.photos.map (photoEvs imgOk dst)).flatten) from rfl]
    rw [imgURLs_photoEvs]

/-- The expected trace through appended pages ends with the last page's
block, requested at the chain's end URI. -/
theorem expectedTrace_append_single (imgOk : GoStr → GoStr) (key dst : GoStr)
    (rs : List Response) (rlast : Response) :
    ∀ uri, expectedTrace imgOk key dst uri (rs ++ [rlast]) =
      expectedTrace imgOk key dst uri rs ++
        pageBlock imgOk key dst (endURI uri rs) rlast := by
  induction rs with
  | nil => intro uri; simp [expectedTrace, endURI]
  | cons r rest ih =>
    intro uri
    simp only [List.cons_append, expectedTrace, endURI, List.append_eq, ih,
      List.append_assoc]

/-- Total photos across appended pages. -/
theorem totalPhotos_append_single (rs : List Response) (rlast : Response) :
    totalPhotos (rs ++ [rlast]) = totalPhotos rs + rlast.photos.length := by
  simp [totalPhotos]

/-- C2: for a chain of `N` pages — the first `N-1` responses each naming
the next page's URI in a nonempty `next_page` cursor, the last response
carrying an empty cursor — and downloads all succeeding, the loop's trace
is exactly the concatenation of the page blocks (each block: the page's
request followed by its photos' download-and-write events in order, so
every photo of a page is downloaded before the next page is requested);
it finishes with the total photo count added to the running total, even
with arbitrarily more fuel available (no request follows the empty-cursor
page); the trace carries exactly `N` page requests and downloads exactly
the pages' photos in page order. -/
theorem pagination_chain_exact (pageF : GoStr → Except Unit Response)
    (imgF : GoStr → Except Unit GoStr) (imgOk : GoStr → GoStr)
    (key dst u0 : GoStr) (t m : Nat) (rs : List Response) (rlast : Response)
    (hchain : chainSteps pageF u0 rs)
    (hlast : pageF (endURI u0 rs) = Except.ok rlast)
    (hterm : rlast.nextPage = [])
    (hdl : ∀ r ∈ rs ++ [rlast], ∀ p ∈ r.photos,
      imgF p.src.large2x = Except.ok (imgOk p.src.large2x)) :
    runFrom pageF imgF key dst (rs.length + 1 + m) u0 t =
        (expectedTrace imgOk key dst u0 (rs ++ [rlast]),
         Outcome.finished (t + totalPhotos (rs ++ [rlast]))) ∧
      ((expectedTrace imgOk key dst u0 (rs ++ [rlast])).filter isPageReq).length =
        rs.length + 1 ∧
      imgURLs (expectedTrace imgOk key dst u0 (rs ++ [rlast])) =
        ((rs ++ [rlast]).map (fun r => r.photos.map (fun p => p.src.large2x))).flatten := by
  have hdlrs : ∀ r ∈ rs, ∀ p ∈ r.photos,
      imgF p.src.large2x = Except.ok (imgOk p.src.large2x) :=
    fun r hr => hdl r (List.mem_append_left [rlast] hr)
  have hdllast : ∀ p ∈ rlast.photos,
      imgF p.src.large2x = Except.ok (imgOk p.src.large2x) :=
    fun p hp => hdl rlast (List.mem_append_right rs (List.mem_singleton_self rlast)) p hp
  refine ⟨?_, ?_, ?_⟩
  · have hfuel : rs.length + 1 + m = rs.length + (m + 1) := by omega
    rw [hfuel, runFrom_chain pageF imgF imgOk key dst rs u0 t (m + 1) hchain hdlrs]
    simp only [runFrom, hlast, processPhotos_ok imgF imgOk dst rlast.photos hdllast,
      hterm, if_pos]
    rw [expectedTrace_append_single, totalPhotos_append_single]
    simp [pageBlock, List.append_assoc]
    omega
  · rw [length_filter_isPageReq_expectedTrace]
    simp
  · rw [imgURLs_expectedTrace]

/-- C2 witness: the two-page chain at concrete inputs — two page requests,
three downloads, finishing with total 3. -/
theorem pagination_chain_exact_witness :
    runFrom wPageF wImgF (gs "key") (gs "out") 2 (gs "https://api/page1") 0 =
        (expectedTrace wImgOk (gs "key") (gs "out") (gs "https://api/page1")
          ([wR1] ++ [wR2]),
         Outcome.finished (0 + totalPhotos ([wR1] ++ [wR2]))) ∧
      ((expectedTrace wImgOk (gs "key") (gs "out") (gs "https://api/page1")
          ([wR1] ++ [wR2])).filter isPageReq).length = 2 ∧
      imgURLs (expectedTrace wImgOk (gs "key") (gs "out") (gs "https://api/page1")
          ([wR1] ++ [wR2])) =
        (([wR1] ++ [wR2]).map (fun r => r.photos.map (fun p => p.src.large2x))).flatten :=
  pagination_chain_exact wPageF wImgF wImgOk (gs "key") (gs "out")
    (gs "https://api/page1") 0 0 [wR1] wR2
    ⟨by decide, by decide, trivial⟩ (by decide) (by decide) (by decide)

/-- A page-request failure (`sendRequest` returning an error, e.g. a non-200
status) aborts the run at once: the trace from that request on is just the
request, no photo of the page is fetched and nothing further happens. -/
theorem runFrom_pageErr (pageF : GoStr → Except Unit Response)
    (imgF : GoStr → Except Unit GoStr) (key dst : GoStr) (fuel : Nat)
    (uri : GoStr) (t : Nat) (h : pageF uri = Except.error ()) :
    runFrom pageF imgF key dst (fuel + 1) uri t =
      ([Ev.pageReq (pageRequest uri key)], Outcome.aborted) := by
  simp only [runFrom, h]

/-- A failing download (`downloadImage` returning an error, e.g. a non-200
status) aborts the run right after the failing image request: the earlier
photos of the page have their writes in the trace, the failing photo has no
file write — its file-creation step is never reached. -/
theorem runFrom_photoFail (pageF : GoStr → Except Unit Response)
    (imgF : GoStr → Except Unit GoStr) (imgOk : GoStr → GoStr) (key dst : GoStr)
    (fuel : Nat) (uri : GoStr) (t : Nat) (resp : Response) (pre : List Photo)
    (pbad : Photo) (post : List Photo)
    (h1 : pageF uri = Except.ok resp)
    (hsplit : resp.photos = pre ++ pbad :: post)
    (hok : ∀ p ∈ pre, imgF p.src.large2x = Except.ok (imgOk p.src.large2x))
    (hbad : imgF pbad.src.large2x = Except.error ()) :
    runFrom pageF imgF key dst (fuel + 1) uri t =
      (Ev.pageReq (pageRequest uri key) ::
         ((pre.map (photoEvs imgOk dst)).flatten ++
           [Ev.imgReq (imageRequest pbad.src.large2x)]),
       Outcome.aborted) := by
  simp only [runFrom, h1, hsplit,
    processPhotos_fail imgF imgOk dst pre pbad post hok hbad]

/-- C6: a non-200 (or otherwise failing) search-page response aborts the
run before any photo of that page is fetched (the trace continues with the
page request only); a non-200 image download aborts the run with no file
write for the failing photo — its file-creation step is never reached —
while the writes of that page's earlier photos, and the full blocks of
earlier pages reached through the cursor chain, are already in the trace
(the model has no event that removes a written file); nothing follows the
abort. -/
theorem abort_semantics (pageF : GoStr → Except Unit Response)
    (imgF : GoStr → Except Unit GoStr) (imgOk : GoStr → GoStr)
    (key dst : GoStr) :
    (∀ fuel uri t, pageF uri = Except.error () →
      runFrom pageF imgF key dst (fuel + 1) uri t =
        ([Ev.pageReq (pageRequest uri key)], Outcome.aborted)) ∧
      (∀ fuel uri t resp (pre : List Photo) pbad post,
        pageF uri = Except.ok resp →
        resp.photos = pre ++ pbad :: post →
        (∀ p ∈ pre, imgF p.src.large2x = Except.ok (imgOk p.src.large2x)) →
        imgF pbad.src.large2x = Except.error () →
        runFrom pageF imgF key dst (fuel + 1) uri t =
          (Ev.pageReq (pageRequest uri key) ::
             ((pre.map (photoEvs imgOk dst)).flatten ++
               [Ev.imgReq (imageRequest pbad.src.large2x)]),
           Outcome.aborted)) ∧
      (∀ fuel uri t rs resp (pre : List Photo) pbad post,
        chainSteps pageF uri rs →
        (∀ r ∈ rs, ∀ p ∈ r.photos,
          imgF p.src.large2x = Except.ok (imgOk p.src.large2x)) →
        pageF (endURI uri rs) = Except.ok resp →
        resp.photos = pre ++ pbad :: post →
        (∀ p ∈ pre, imgF p.src.large2x = Except.ok (imgOk p.src.large2x)) →
        imgF pbad.src.large2x = Except.error () →
        runFrom pageF imgF key dst (rs.length + (fuel + 1)) uri t =
          (expectedTrace imgOk key dst uri rs ++
             Ev.pageReq (pageRequest (endURI uri rs) key) ::
               ((pre.map (photoEvs imgOk dst)).flatten ++
                 [Ev.imgReq (imageRequest pbad.src.large2x)]),
           Outcome.aborted)) := by
  refine ⟨runFrom_pageErr pageF imgF key dst, ?_, ?_⟩
  · intro fuel uri t resp pre pbad post h1 hsplit hok hbad
    exact runFrom_photoFail pageF imgF imgOk key dst fuel uri t resp pre pbad
      post h1 hsplit hok hbad
  · intro fuel uri t rs resp pre pbad post hchain hdl h1 hsplit hok hbad
    rw [runFrom_chain pageF imgF imgOk key dst rs uri t (fuel + 1) hchain hdl]
    rw [runFrom_photoFail pageF imgF imgOk key dst fuel (endURI uri rs)
      (t + totalPhotos rs) resp pre pbad post h1 hsplit hok hbad]

/-- C6 witness: at concrete inputs, a failing page request leaves only the
page request in the trace, and a first-photo download failure leaves the
page request and the failing image request — no file write. -/
theorem abort_semantics_witness :
    runFrom (fun _ => Except.error ()) wImgF (gs "key") (gs "out") 1 (gs "u") 0 =
        ([Ev.pageReq (pageRequest (gs "u") (gs "key"))], Outcome.aborted) ∧
      runFrom wPageF wFailImgF (gs "key") (gs "out") 1 (gs "https://api/page1") 0 =
        (Ev.pageReq (pageRequest (gs "https://api/page1") (gs "key")) ::
           (([] : List Photo).map (photoEvs wImgOk (gs "out"))).flatten ++
             [Ev.imgReq (imageRequest (gs "https://img/a.jpg"))],
         Outcome.aborted) :=
  ⟨(abort_semantics (fun _ => Except.error ()) wImgF wImgOk (gs "key")
      (gs "out")).1 0 (gs "u") 0 rfl,
   (abort_semantics wPageF wFailImgF wImgOk (gs "key") (gs "out")).2.1 0
     (gs "https://api/page1") 0 wR1 [] (wPhoto "https://img/a.jpg")
     [wPhoto "https://img/b.jpg"] (by decide) (by decide)
     (fun p hp => absurd hp (List.not_mem_nil p)) rfl⟩

/-- One loop iteration under an all-success server: emit the page block,
then finish on an empty cursor or continue at the cursor. -/
theorem runFrom_succ_total (pageOk : GoStr → Response) (imgOk : GoStr → GoStr)
    (key dst : GoStr) (fuel : Nat) (uri : GoStr) (t : Nat) :
    runFrom (fun u => Except.ok (pageOk u)) (fun u => Except.ok (imgOk u))
        key dst (fuel + 1) uri t =
      if (pageOk uri).nextPage = [] then
        (pageBlock imgOk key dst uri (pageOk uri),
         Outcome.finished (t + (pageOk uri).photos.length))
      else
        (pageBlock imgOk key dst uri (pageOk uri) ++
           (runFrom (fun u => Except.ok (pageOk u)) (fun u => Except.ok (imgOk u))
             key dst fuel (pageOk uri).nextPage (t + (pageOk uri).photos.length)).1,
         (runFrom (fun u => Except.ok (pageOk u)) (fun u => Except.ok (imgOk u))
           key dst fuel (pageOk uri).nextPage (t + (pageOk uri).photos.length)).2) := by
  simp only [runFrom]
  rw [processPhotos_ok (fun u => Except.ok (imgOk u)) imgOk dst
    (pageOk uri).photos (fun p _ => rfl)]
  by_cases h0 : (pageOk uri).nextPage = []
  · simp [h0, pageBlock]
  · simp only [if_neg h0]
    rcases hrec : runFrom (fun u => Except.ok (pageOk u))
        (fun u => Except.ok (imgOk u)) key dst fuel (pageOk uri).nextPage
        (t + (pageOk uri).photos.length) with ⟨evs', out⟩
    simp [pageBlock, hrec]

/-- With an all-success server, a run with fuel `n + 1` does not run out of
fuel when the `n`-th visited page carries an empty cursor. -/
theorem runFrom_term_of_empty_cursor (pageOk : GoStr → Response)
    (imgOk : GoStr → GoStr) (key dst : GoStr) :
    ∀ n uri t, (pageOk (uriAt pageOk uri n)).nextPage = [] →
      (runFrom (fun u => Except.ok (pageOk u)) (fun u => Except.ok (imgOk u))
        key dst (n + 1) uri t).2 ≠ Outcome.outOfFuel := by
  intro n
  induction n with
  | zero =>
    intro uri t h
    simp only [uriAt] at h
    rw [runFrom_succ_total]
    simp [h]
  | succ n ih =>
    intro uri t h
    rw [runFrom_succ_total]
    by_cases h0 : (pageOk uri).nextPage = []
    · simp [h0]
    · have hshift : (pageOk (uriAt pageOk (pageOk uri).nextPage n)).nextPage = [] := h
      have := ih (pageOk uri).nextPage (t + (pageOk uri).photos.length) hshift
      simp [h0, this]

/-- With an all-success server whose cursors never run out, every fuel
bound is exhausted. -/
theorem runFrom_noterm_of_no_empty_cursor (pageOk : GoStr → Response)
    (imgOk : GoStr → GoStr) (key dst : GoStr) :
    ∀ fuel uri t, (∀ n, (pageOk (uriAt pageOk uri n)).nextPage ≠ []) →
      (runFrom (fun u => Except.ok (pageOk u)) (fun u => Except.ok (imgOk u))
        key dst fuel uri t).2 = Outcome.outOfFuel := by
  intro fuel
  induction fuel with
  | zero => intro uri t _; rfl
  | succ fuel ih =>
    intro uri t h
    have h0 : (pageOk uri).nextPage ≠ [] := h 0
    rw [runFrom_succ_total]
    have hshift : ∀ n, (pageOk (uriAt pageOk (pageOk uri).nextPage n)).nextPage ≠ [] :=
      fun n => h (n + 1)
    have := ih (pageOk uri).nextPage (t + (pageOk uri).photos.length) hshift
    simp [h0, this]

/-- C8: with a server that always answers successfully, the pagination loop
terminates (some fuel bound suffices) if and only if the server eventually
returns an empty next-page cursor along the visited chain; there is no
maximum-page cap, so a never-empty cursor chain keeps the loop running past
every fuel bound. -/
theorem pagination_terminates_iff (pageOk : GoStr → Response)
    (imgOk : GoStr → GoStr) (key dst u0 : GoStr) (t : Nat) :
    (∃ fuel, (runFrom (fun u => Except.ok (pageOk u))
        (fun u => Except.ok (imgOk u)) key dst fuel u0 t).2 ≠ Outcome.outOfFuel) ↔
      ∃ n, (pageOk (uriAt pageOk u0 n)).nextPage = [] := by
  constructor
  · rintro ⟨fuel, hf⟩
    by_contra hno
    push_neg at hno
    exact hf (runFrom_noterm_of_no_empty_cursor pageOk imgOk key dst fuel u0 t hno)
  · rintro ⟨n, hn⟩
    exact ⟨n + 1, runFrom_term_of_empty_cursor pageOk imgOk key dst n u0 t hn⟩

/-- C9: the run with key `"abc"` and query `"cats"` against the scenario
server performs one page request and one image download, writes exactly one
file, named `cats1.jpg`, into the destination directory, and finishes
normally (process exit status 0) with logged total count 1. -/
theorem single_page_cats_scenario (dst : GoStr) :
    runMain catsPageF catsImgF (gs "abc") dst (gs "cats") 1 =
      ([Ev.pageReq (pageRequest
          (gs "https://api.pexels.com/v1/search?page=1&per_page=80&query=cats")
          (gs "abc")),
        Ev.imgReq (imageRequest (gs "https://x/cats1.jpg")),
        Ev.fileWrite dst (gs "cats1.jpg") (gs "JPEG")],
       Outcome.finished 1) := by
  rfl
